import Mathlib

/-!
Shallow embedding of `presenters/chart_generator.py` (EMPS_Spark).

The embedded core is the data-shaping part of the three chart builders:

* `generate_market_chart`   — sorts the rows, builds the x-axis labels and
  the volume / price / bid series (the Plotly figure assembly is pure
  rendering and carries no further data logic);
* `generate_multi_market_chart` — per-market labels and prices;
* `generate_comparison_chart`   — year-over-year volume/price bar pairs.

Python dicts of row fields become a structure whose two interval fields are
`Option Int` (those are the only fields the code reads with `dict.get`; all
remaining fields are read with mandatory `row["key"]` indexing and so are
plain fields here).  Python floats become `Rat`.  the stable Python `sorted`
becomes `List.insertionSort` under a non-strict lexicographic key order,
which is a stable sort.  A `KeyError` raised by `r["slot_index"]` on a row
lacking the key becomes `Except.error`.
-/

namespace ChartGenerator

open List

/-- One input row (`MarketRow`), as read by `chart_generator.py`:
`delivery_date`, `price_avg`, `mcv_mw`, `purchase_bid_mw`, `sell_bid_mw`
are accessed with mandatory indexing; `slot_index` and `block_index` are
accessed with `dict.get` and may be absent. -/
structure MarketRow where
  delivery_date : Nat
  slot_index : Option Int
  block_index : Option Int
  price_avg : Rat
  mcv_mw : Rat
  purchase_bid_mw : Rat
  sell_bid_mw : Rat
deriving DecidableEq, Repr

/-- The second component of the sort key used at lines 80 and 161:
`x.get("block_index", x.get("slot_index", 0))`. -/
def intervalKey (r : MarketRow) : Int :=
  r.block_index.getD (r.slot_index.getD 0)

/-- Python tuple comparison on the sort key
`(delivery_date, intervalKey)`: lexicographic less-or-equal, the total
preorder underlying `sorted(rows, key=...)`. -/
def RowLe (a b : MarketRow) : Prop :=
  a.delivery_date < b.delivery_date ∨
    (a.delivery_date = b.delivery_date ∧ intervalKey a ≤ intervalKey b)

instance : DecidableRel RowLe := fun _ _ =>
  inferInstanceAs (Decidable (_ ∨ _ ∧ _))

instance : IsTotal MarketRow RowLe :=
  ⟨fun a b => by unfold RowLe; omega⟩

instance : IsTrans MarketRow RowLe :=
  ⟨fun a b c hab hbc => by unfold RowLe at *; omega⟩

/-- The call `sorted(rows, key=lambda x: (x["delivery_date"], x.get("block_index", x.get("slot_index", 0))))`
— Python `sorted` is a stable sort by that key, modelled as the stable
`List.insertionSort` under the total preorder `RowLe`. -/
def sortRows (rows : List MarketRow) : List MarketRow :=
  rows.insertionSort RowLe

/-- The quarterly label, `delivery_date` then " S-" then `slot_index`,
with mandatory access to `slot_index`: the label is absent (a `KeyError`)
when the field is. -/
def quarterlyLabel (r : MarketRow) : Option String :=
  r.slot_index.map (fun s => toString r.delivery_date ++ " S-" ++ toString s)

/-- The hourly label, `delivery_date` then " H-" then `block_index`,
the index read with a `get` defaulting to 0. -/
def hourlyLabel (r : MarketRow) : String :=
  toString r.delivery_date ++ " H-" ++ toString (r.block_index.getD 0)

/-- The x-axis label list of both builders: quarterly labels require
`slot_index` on every row, hourly labels never fail. -/
def seriesLabels (is_quarterly : Bool) (rows : List MarketRow) :
    Except String (List String) :=
  if is_quarterly then
    match rows.mapM quarterlyLabel with
    | some ls => .ok ls
    | none => .error "KeyError: slot_index"
  else
    .ok (rows.map hourlyLabel)

/-- The volume list of `generate_market_chart`:
each `mcv_mw` scaled by `* 0.25` when quarterly, else by `/ 4.0`. -/
def seriesVolumes (is_quarterly : Bool) (rows : List MarketRow) : List Rat :=
  if is_quarterly then
    rows.map (fun r => r.mcv_mw * (25 / 100 : Rat))
  else
    rows.map (fun r => r.mcv_mw / (4 : Rat))

/-- The price conversion `price_avg / 1000.0`, used by both the single-
and multi-market builders. -/
def price_per_kwh (r : MarketRow) : Rat :=
  r.price_avg / 1000

/-- The data content of a single-market figure: the five parallel
sequences fed to the traces of `generate_market_chart`. -/
structure Series where
  labels : List String
  volumes : List Rat
  prices : List Rat
  buyBids : List Rat
  sellBids : List Rat
deriving DecidableEq, Repr

/-- `generate_market_chart(market_name, time_label, rows, is_quarterly)`,
data part.  `Except.ok none` is the Python `return None` on empty input;
`Except.error` is the `KeyError` raised by `r["slot_index"]` on a
quarterly row lacking the field. -/
def generate_market_chart (rows : List MarketRow) (is_quarterly : Bool) :
    Except String (Option Series) :=
  if rows.isEmpty then .ok none
  else
    match seriesLabels is_quarterly (sortRows rows) with
    | .error e => .error e
    | .ok labels =>
        .ok (some
          { labels := labels
            volumes := seriesVolumes is_quarterly (sortRows rows)
            prices := (sortRows rows).map price_per_kwh
            buyBids := (sortRows rows).map (fun r => r.purchase_bid_mw)
            sellBids := (sortRows rows).map (fun r => r.sell_bid_mw) })

/-- One trace added by the loop of `generate_multi_market_chart`. -/
structure Trace where
  market : String
  labels : List String
  prices : List Rat
deriving DecidableEq, Repr

/-- The loop body of `generate_multi_market_chart`: one trace per market
with a non-empty row collection (`if not rows: continue`), in the
iteration order of the mapping. -/
def multiTraces (is_quarterly : Bool) :
    List (String × List MarketRow) → Except String (List Trace)
  | [] => .ok []
  | (name, rows) :: rest =>
    if rows.isEmpty then multiTraces is_quarterly rest
    else
      match seriesLabels is_quarterly (sortRows rows) with
      | .error e => .error e
      | .ok labels =>
          match multiTraces is_quarterly rest with
          | .error e => .error e
          | .ok ts =>
              .ok ({ market := name, labels := labels
                     prices := (sortRows rows).map price_per_kwh } :: ts)

/-- `generate_multi_market_chart(market_data, time_label, is_quarterly)`,
data part.  The Python dict is an insertion-ordered association list.
`Except.ok none` is `return None` on an empty mapping. -/
def generate_multi_market_chart (market_data : List (String × List MarketRow))
    (is_quarterly : Bool) : Except String (Option (List Trace)) :=
  if market_data.isEmpty then .ok none
  else
    match multiTraces is_quarterly market_data with
    | .error e => .error e
    | .ok ts => .ok (some ts)

/-- A per-market summary as read by `generate_comparison_chart`: both
fields are accessed with `dict.get(..., 0)` and may be absent. -/
structure MarketSummary where
  total_volume_gwh : Option Rat
  twap : Option Rat
deriving DecidableEq, Repr

/-- `data.get(market, {})`: the summary for a market, an all-absent
summary when the market is missing from the mapping. -/
def lookupMarket (data : List (String × MarketSummary)) (m : String) :
    MarketSummary :=
  (data.lookup m).getD ⟨none, none⟩

/-- The four bars emitted for one included market: current/previous
volume and current/previous price. -/
structure MarketBars where
  market : String
  currVolume : Rat
  prevVolume : Rat
  currPrice : Rat
  prevPrice : Rat
deriving DecidableEq, Repr

/-- The fixed market list, `markets = ["DAM", "GDAM", "RTM"]`. -/
def markets : List String := ["DAM", "GDAM", "RTM"]

/-- One iteration of the loop of `generate_comparison_chart`: bars are
emitted iff `curr.get("total_volume_gwh", 0) > 0`; every previous-year
value falls back to 0 through `prev.get(..., 0)`. -/
def marketBar (current_data previous_data : List (String × MarketSummary))
    (m : String) : Option MarketBars :=
  if 0 < (lookupMarket current_data m).total_volume_gwh.getD 0 then
    some
      { market := m
        currVolume := (lookupMarket current_data m).total_volume_gwh.getD 0
        prevVolume := (lookupMarket previous_data m).total_volume_gwh.getD 0
        currPrice := (lookupMarket current_data m).twap.getD 0
        prevPrice := (lookupMarket previous_data m).twap.getD 0 }
  else
    none

/-- `generate_comparison_chart(current_data, previous_data, year)`, data
part: `none` is `return None` when `has_data` stays false, i.e. when no
market passes the volume test. -/
def generate_comparison_chart
    (current_data previous_data : List (String × MarketSummary)) :
    Option (List MarketBars) :=
  if (markets.filterMap (marketBar current_data previous_data)).isEmpty then
    none
  else
    some (markets.filterMap (marketBar current_data previous_data))

/-- Whether a multi-market result carries no series at all: either the
`None` of an empty input mapping or a figure with zero traces. -/
def resultIsEmpty : Option (List Trace) → Bool
  | none => true
  | some ts => ts.isEmpty

/-- Whether a row carries the sort key `(k.1, k.2)` = (delivery date,
interval index as read by the code). -/
def sameKey (k : Nat × Int) (r : MarketRow) : Bool :=
  decide (r.delivery_date = k.1) && decide (intervalKey r = k.2)

/-- The second sort-key component as the claim describes it: read from
`slot_index` when `isQuarterly`, from `block_index` otherwise, defaulting
to 0 when absent.  (This follows the wording of the claim; the key used
by the code is `intervalKey`, which consults `block_index` first for both
flag values.) -/
def claimIntervalKey (isQuarterly : Bool) (r : MarketRow) : Int :=
  if isQuarterly then r.slot_index.getD 0 else r.block_index.getD 0

/-- Lexicographic less-or-equal on the claimed sort key
`(delivery_date, claimIntervalKey)`. -/
def ClaimRowLe (isQuarterly : Bool) (a b : MarketRow) : Prop :=
  a.delivery_date < b.delivery_date ∨
    (a.delivery_date = b.delivery_date ∧
      claimIntervalKey isQuarterly a ≤ claimIntervalKey isQuarterly b)

instance (q : Bool) : DecidableRel (ClaimRowLe q) := fun _ _ =>
  inferInstanceAs (Decidable (_ ∨ _ ∧ _))

/-- A quarterly row whose `slot_index` and `block_index` order in opposite
directions relative to `c1RowB` (slot 2 vs 1, block 1 vs 2). -/
def c1RowA : MarketRow := ⟨1, some 2, some 1, 0, 0, 0, 0⟩

/-- Companion row to `c1RowA`. -/
def c1RowB : MarketRow := ⟨1, some 1, some 2, 0, 0, 0, 0⟩

/-- Two rows sharing the full sort key (delivery date 1, slot 1, no block)
but with distinct payloads, for the stability law. -/
def c8RowA : MarketRow := ⟨1, some 1, none, 10, 0, 0, 0⟩

/-- Companion row to `c8RowA`: same sort key, different payload. -/
def c8RowB : MarketRow := ⟨1, some 1, none, 20, 0, 0, 0⟩

/-- A row carrying `block_index` but no `slot_index`: fine for hourly
labelling, a `KeyError` for quarterly labelling. -/
def rowNoSlot : MarketRow := ⟨3, none, some 2, 5, 8, 1, 2⟩

/-- A quarterly row with a `slot_index` and no `block_index`. -/
def rowSlotOnly : MarketRow := ⟨7, some 4, none, 2500, 120, 200, 180⟩

/-- The series the single-market builder produces for `[rowNoSlot]` in
hourly mode. -/
def sampleSeries : Series :=
  { labels := ["3 H-2"], volumes := [(8 : Rat) / 4],
    prices := [(5 : Rat) / 1000], buyBids := [1], sellBids := [2] }

/-- The trace the multi-market builder produces for `rowNoSlot` under
market name GDAM in hourly mode. -/
def sampleTrace : Trace :=
  { market := "GDAM", labels := ["3 H-2"], prices := [(5 : Rat) / 1000] }

/-- A two-market mapping whose first market has an empty row collection. -/
def sampleMarketData : List (String × List MarketRow) :=
  [("DAM", []), ("GDAM", [rowNoSlot])]

/-- A current-year summary mapping carrying only GDAM, with positive
volume 7 and price 3. -/
def sampleCurrent : List (String × MarketSummary) :=
  [("GDAM", ⟨some 7, some 3⟩)]

/-- The bar quadruple the comparison builder emits for `sampleCurrent`
against an empty previous-year mapping. -/
def sampleBar : MarketBars :=
  { market := "GDAM", currVolume := 7, prevVolume := 0,
    currPrice := 3, prevPrice := 0 }

/-! ### Helper lemmas on the sorting step -/

lemma sortRows_perm (rows : List MarketRow) : sortRows rows ~ rows :=
  List.perm_insertionSort _ _

lemma sortRows_length (rows : List MarketRow) :
    (sortRows rows).length = rows.length :=
  (sortRows_perm rows).length_eq

lemma sortRows_sorted (rows : List MarketRow) :
    (sortRows rows).Sorted RowLe :=
  List.sorted_insertionSort _ _

lemma sortRows_idem (rows : List MarketRow) :
    sortRows (sortRows rows) = sortRows rows :=
  (sortRows_sorted rows).insertionSort_eq

lemma rowLe_of_sameKey {k : Nat × Int} {a b : MarketRow}
    (ha : sameKey k a = true) (hb : sameKey k b = true) : RowLe a b := by
  simp only [sameKey, Bool.and_eq_true, decide_eq_true_eq] at ha hb
  exact Or.inr ⟨ha.1.trans hb.1.symm, le_of_eq (ha.2.trans hb.2.symm)⟩

lemma sortRows_filter_sameKey (rows : List MarketRow) (k : Nat × Int) :
    (sortRows rows).filter (sameKey k) = rows.filter (sameKey k) := by
  have hpair : (rows.filter (sameKey k)).Pairwise RowLe :=
    List.pairwise_of_forall_mem_list fun a ha b hb =>
      rowLe_of_sameKey (List.of_mem_filter ha) (List.of_mem_filter hb)
  have hsub : rows.filter (sameKey k) <+ sortRows rows :=
    List.sublist_insertionSort hpair (List.filter_sublist rows)
  have hsub2 : rows.filter (sameKey k) <+ (sortRows rows).filter (sameKey k) := by
    have h := hsub.filter (sameKey k)
    rwa [List.filter_eq_self.mpr (fun a ha => List.of_mem_filter ha)] at h
  have hlen : ((sortRows rows).filter (sameKey k)).length =
      (rows.filter (sameKey k)).length :=
    ((sortRows_perm rows).filter _).length_eq
  exact (hsub2.eq_of_length hlen.symm).symm

/-! ### Helper lemmas on labels and the single-market builder -/

lemma mapM_option_length {α β : Type} {f : α → Option β} :
    ∀ {l : List α} {ls : List β}, l.mapM f = some ls → ls.length = l.length := by
  intro l
  induction l with
  | nil =>
    intro ls h
    simp only [List.mapM_nil, pure, Option.some_inj] at h
    simp [← h]
  | cons a t ih =>
    intro ls h
    rw [List.mapM_cons] at h
    cases hfa : f a with
    | none => rw [hfa] at h; simp at h
    | some b =>
      rw [hfa] at h
      cases hmt : t.mapM f with
      | none => rw [hmt] at h; simp at h
      | some xs =>
        rw [hmt] at h
        simp only [Option.bind_eq_bind, Option.some_bind, Option.pure_def,
          Option.some_inj] at h
        simp [← h, ih hmt]

lemma mapM_quarterlyLabel_some {l : List MarketRow}
    (h : ∀ r ∈ l, (r.slot_index).isSome) :
    l.mapM quarterlyLabel = some (l.map fun r =>
      toString r.delivery_date ++ " S-" ++ toString (r.slot_index.getD 0)) := by
  induction l with
  | nil => rfl
  | cons r t ih =>
    obtain ⟨s, hs⟩ := Option.isSome_iff_exists.mp (h r (mem_cons_self r t))
    have ht := ih fun x hx => h x (mem_cons_of_mem _ hx)
    rw [List.mapM_cons, ht]
    simp [quarterlyLabel, hs]

lemma mapM_quarterlyLabel_none {l : List MarketRow} {r : MarketRow}
    (hr : r ∈ l) (hnone : r.slot_index = none) :
    l.mapM quarterlyLabel = none := by
  induction l with
  | nil => cases hr
  | cons a t ih =>
    rcases mem_cons.mp hr with h | h
    · subst h
      rw [List.mapM_cons]
      simp [quarterlyLabel, hnone]
    · rw [List.mapM_cons, ih h]
      cases ha : quarterlyLabel a <;> simp [ha]

lemma seriesLabels_length {q : Bool} {l : List MarketRow} {ls : List String}
    (h : seriesLabels q l = .ok ls) : ls.length = l.length := by
  unfold seriesLabels at h
  cases q with
  | false =>
    simp only [Bool.false_eq_true, if_false, Except.ok.injEq] at h
    simp [← h]
  | true =>
    simp only [if_true] at h
    cases hm : l.mapM quarterlyLabel with
    | none => rw [hm] at h; cases h
    | some xs =>
      rw [hm] at h
      cases h
      exact mapM_option_length hm

lemma seriesVolumes_length (q : Bool) (l : List MarketRow) :
    (seriesVolumes q l).length = l.length := by
  unfold seriesVolumes
  split <;> simp

/-- Anatomy of a successful single-market build. -/
lemma generate_market_chart_ok {rows : List MarketRow} {q : Bool} {s : Series}
    (h : generate_market_chart rows q = .ok (some s)) :
    rows ≠ [] ∧ seriesLabels q (sortRows rows) = .ok s.labels ∧
      s.volumes = seriesVolumes q (sortRows rows) ∧
      s.prices = (sortRows rows).map price_per_kwh ∧
      s.buyBids = (sortRows rows).map (fun r => r.purchase_bid_mw) ∧
      s.sellBids = (sortRows rows).map (fun r => r.sell_bid_mw) := by
  unfold generate_market_chart at h
  split at h
  · cases h
  · next hne =>
    cases hl : seriesLabels q (sortRows rows) with
    | error e => rw [hl] at h; cases h
    | ok labels =>
      rw [hl] at h
      cases h
      exact ⟨by simpa [List.isEmpty_iff] using hne, rfl, rfl, rfl, rfl, rfl⟩

/-- Construction form of a successful single-market build. -/
lemma generate_market_chart_eq_ok {rows : List MarketRow} {q : Bool}
    {labels : List String} (hne : rows ≠ [])
    (hl : seriesLabels q (sortRows rows) = .ok labels) :
    generate_market_chart rows q = .ok (some
      { labels := labels
        volumes := seriesVolumes q (sortRows rows)
        prices := (sortRows rows).map price_per_kwh
        buyBids := (sortRows rows).map (fun r => r.purchase_bid_mw)
        sellBids := (sortRows rows).map (fun r => r.sell_bid_mw) }) := by
  unfold generate_market_chart
  rw [if_neg (by simp [List.isEmpty_iff, hne]), hl]

/-- A failing label computation fails the whole single-market build. -/
lemma generate_market_chart_eq_error {rows : List MarketRow} {q : Bool}
    {e : String} (hne : rows ≠ [])
    (hl : seriesLabels q (sortRows rows) = .error e) :
    generate_market_chart rows q = .error e := by
  unfold generate_market_chart
  rw [if_neg (by simp [List.isEmpty_iff, hne]), hl]

/-- Anatomy of each trace of a successful multi-market build. -/
lemma multiTraces_mem {q : Bool} {md : List (String × List MarketRow)}
    {ts : List Trace} (h : multiTraces q md = .ok ts) :
    ∀ t ∈ ts, ∃ rows, (t.market, rows) ∈ md ∧ rows ≠ [] ∧
      seriesLabels q (sortRows rows) = .ok t.labels ∧
      t.prices = (sortRows rows).map price_per_kwh := by
  induction md generalizing ts with
  | nil =>
    cases h
    intro t ht
    cases ht
  | cons p rest ih =>
    obtain ⟨name, rows⟩ := p
    rw [multiTraces] at h
    split at h
    · next hempty =>
      intro t ht
      obtain ⟨rows', hmem, hr⟩ := ih h t ht
      exact ⟨rows', mem_cons_of_mem _ hmem, hr⟩
    · next hempty =>
      cases hl : seriesLabels q (sortRows rows) with
      | error e => rw [hl] at h; cases h
      | ok labels =>
        rw [hl] at h
        cases hrest : multiTraces q rest with
        | error e => rw [hrest] at h; cases h
        | ok ts' =>
          rw [hrest] at h
          cases h
          intro t ht
          rcases mem_cons.mp ht with h' | h'
          · subst h'
            exact ⟨rows, mem_cons_self _ _,
              fun hn => hempty (by simp [hn]), hl, rfl⟩
          · obtain ⟨rows', hmem, hr⟩ := ih hrest t h'
            exact ⟨rows', mem_cons_of_mem _ hmem, hr⟩

/-- The market names of a successful multi-market build, in order: the
input keys with empty-row markets filtered out. -/
lemma multiTraces_markets {q : Bool} {md : List (String × List MarketRow)}
    {ts : List Trace} (h : multiTraces q md = .ok ts) :
    ts.map Trace.market = (md.filter (fun p => !p.2.isEmpty)).map Prod.fst := by
  induction md generalizing ts with
  | nil => cases h; rfl
  | cons p rest ih =>
    obtain ⟨name, rows⟩ := p
    rw [multiTraces] at h
    split at h
    · next hempty =>
      rw [ih h, filter_cons]
      simp [hempty]
    · next hempty =>
      cases hl : seriesLabels q (sortRows rows) with
      | error e => rw [hl] at h; cases h
      | ok labels =>
        rw [hl] at h
        cases hrest : multiTraces q rest with
        | error e => rw [hrest] at h; cases h
        | ok ts' =>
          rw [hrest] at h
          cases h
          rw [filter_cons]
          simp only [Bool.not_eq_true']
          rw [if_pos (by simpa using hempty)]
          simp [ih hrest]

/-- In an association list with distinct keys, a key determines its
value. -/
lemma eq_snd_of_nodup_keys {β : Type} {l : List (String × β)}
    (h : (l.map Prod.fst).Nodup) {n : String} {a b : β}
    (ha : (n, a) ∈ l) (hb : (n, b) ∈ l) : a = b := by
  induction l with
  | nil => cases ha
  | cons p t ih =>
    obtain ⟨pn, pv⟩ := p
    rw [map_cons, nodup_cons] at h
    rcases mem_cons.mp ha with h1 | h1 <;> rcases mem_cons.mp hb with h2 | h2
    · injection h1 with e1 e2
      injection h2 with e3 e4
      rw [e2, e4]
    · exfalso
      apply h.1
      injection h1 with e1 e2
      rw [← e1]
      exact List.mem_map.mpr ⟨(n, b), h2, rfl⟩
    · exfalso
      apply h.1
      injection h2 with e3 e4
      rw [← e3]
      exact List.mem_map.mpr ⟨(n, a), h1, rfl⟩
    · exact ih h.2 h1 h2

/-! ### Helper lemmas on the comparison builder -/

lemma marketBar_eq_some_of_pos {cur : List (String × MarketSummary)}
    (prev : List (String × MarketSummary))
    {m : String} (hv : 0 < (lookupMarket cur m).total_volume_gwh.getD 0) :
    marketBar cur prev m = some
      { market := m
        currVolume := (lookupMarket cur m).total_volume_gwh.getD 0
        prevVolume := (lookupMarket prev m).total_volume_gwh.getD 0
        currPrice := (lookupMarket cur m).twap.getD 0
        prevPrice := (lookupMarket prev m).twap.getD 0 } := by
  simp only [marketBar, if_pos hv]

lemma marketBar_eq_none_of_nonpos {cur prev : List (String × MarketSummary)}
    {m : String} (hv : ¬ 0 < (lookupMarket cur m).total_volume_gwh.getD 0) :
    marketBar cur prev m = none := by
  simp only [marketBar, if_neg hv]

lemma comparisonBars_map_market (cur prev : List (String × MarketSummary))
    (ms : List String) :
    (ms.filterMap (marketBar cur prev)).map MarketBars.market =
      ms.filter (fun m =>
        decide (0 < (lookupMarket cur m).total_volume_gwh.getD 0)) := by
  induction ms with
  | nil => rfl
  | cons m t ih =>
    by_cases hv : 0 < (lookupMarket cur m).total_volume_gwh.getD 0
    · rw [filterMap_cons, filter_cons, marketBar_eq_some_of_pos prev hv,
        if_pos (decide_eq_true hv)]
      simpa using ih
    · rw [filterMap_cons, filter_cons, marketBar_eq_none_of_nonpos hv,
        if_neg (by simpa using hv)]
      exact ih

lemma mem_comparisonBars {cur prev : List (String × MarketSummary)}
    {ms : List String} {b : MarketBars}
    (hb : b ∈ ms.filterMap (marketBar cur prev)) :
    0 < (lookupMarket cur b.market).total_volume_gwh.getD 0 ∧
      b.market ∈ ms ∧
      b.prevVolume = (lookupMarket prev b.market).total_volume_gwh.getD 0 ∧
      b.prevPrice = (lookupMarket prev b.market).twap.getD 0 := by
  obtain ⟨m, hm, hmb⟩ := mem_filterMap.mp hb
  simp only [marketBar] at hmb
  split at hmb
  · next hv =>
    cases hmb
    exact ⟨hv, hm, rfl, rfl⟩
  · cases hmb

lemma lookupMarket_of_lookup_none {d : List (String × MarketSummary)}
    {m : String} (h : d.lookup m = none) :
    lookupMarket d m = ⟨none, none⟩ := by
  unfold lookupMarket
  rw [h]
  rfl

/-! ### Claims -/

/-- Claim C1, counterexample.  The claim says the interval component of
the sort key is `slot_index` when `isQuarterly` is true; but the key used
by the code reads `block_index` first for both flag values.  On two quarterly rows
carrying both fields in opposite orders, the code keeps `c1RowA` (slot 2,
block 1) before `c1RowB` (slot 1, block 2), which is not ascending in the
claimed key. -/
theorem c1_counterexample :
    sortRows [c1RowA, c1RowB] = [c1RowA, c1RowB] ∧
      ¬ ClaimRowLe true c1RowA c1RowB := by
  decide

/-- Claim C1 (amended): both builders sort rows stably by
`(delivery_date, interval_index)` ascending, where the interval index is
the `block_index` of the row when present, else its `slot_index`, else 0, for
both values of `isQuarterly`: the sorted list is a permutation of the
input, sorted under `RowLe`, and rows of any fixed key keep their
original relative order. -/
theorem c1_sort_contract (rows : List MarketRow) :
    sortRows rows ~ rows ∧ (sortRows rows).Sorted RowLe ∧
      ∀ k : Nat × Int,
        (sortRows rows).filter (sameKey k) = rows.filter (sameKey k) :=
  ⟨sortRows_perm rows, sortRows_sorted rows, sortRows_filter_sameKey rows⟩

/-- Claim C8: the internal sort is idempotent, and two rows with
identical `(delivery_date, interval_index)` keep their original relative
order in the output. -/
theorem c8_stable_idempotent (rows : List MarketRow) :
    sortRows (sortRows rows) = sortRows rows ∧
      ∀ a b : MarketRow, a.delivery_date = b.delivery_date →
        intervalKey a = intervalKey b → [a, b] <+ rows →
        [a, b] <+ sortRows rows :=
  ⟨sortRows_idem rows, fun _ _ hd hk hab =>
    List.pair_sublist_insertionSort (Or.inr ⟨hd, le_of_eq hk⟩) hab⟩

/-- Claim C8, witness: two equal-key rows supplied in a given order stay
in that order after sorting, and re-sorting changes nothing. -/
theorem c8_witness :
    sortRows (sortRows [c8RowA, c8RowB]) = sortRows [c8RowA, c8RowB] ∧
      [c8RowA, c8RowB] <+ sortRows [c8RowA, c8RowB] :=
  ⟨(c8_stable_idempotent [c8RowA, c8RowB]).1,
    (c8_stable_idempotent [c8RowA, c8RowB]).2 c8RowA c8RowB rfl rfl
      (List.Sublist.refl _)⟩

/-- Claim C9: empty input produces the explicit empty result (`None`),
never an exception, for both the single- and multi-market builders. -/
theorem c9_empty_input (q : Bool) :
    generate_market_chart [] q = .ok none ∧
      generate_multi_market_chart [] q = .ok none :=
  ⟨rfl, rfl⟩

/-- Claim C2, counterexample.  On a quarterly row lacking `slot_index`
the label computation accesses `r["slot_index"]` unconditionally, so the
builder fails with a `KeyError` instead of defaulting the index to 0. -/
theorem c2_counterexample :
    generate_market_chart [rowNoSlot] true = .error "KeyError: slot_index" :=
  rfl

/-- Claim C2 (amended): each sorted row contributes one label, duplicates
preserved.  Quarterly labels are `"{delivery_date} S-{slot_index}"` and
require `slot_index` on every row — a missing `slot_index` fails the
build (`KeyError`) rather than defaulting.  Hourly labels are
`"{delivery_date} H-{block_index}"` with a missing `block_index`
defaulting to 0. -/
theorem c2_labels (rows : List MarketRow) :
    (rows ≠ [] → (∀ r ∈ rows, (r.slot_index).isSome) →
      ∃ s, generate_market_chart rows true = .ok (some s) ∧
        s.labels = (sortRows rows).map (fun r =>
          toString r.delivery_date ++ " S-" ++ toString (r.slot_index.getD 0))) ∧
    (rows ≠ [] →
      ∃ s, generate_market_chart rows false = .ok (some s) ∧
        s.labels = (sortRows rows).map (fun r =>
          toString r.delivery_date ++ " H-" ++ toString (r.block_index.getD 0))) ∧
    (∀ r ∈ rows, r.slot_index = none →
      generate_market_chart rows true = .error "KeyError: slot_index") := by
  refine ⟨fun hne hsome => ?_, fun hne => ?_, fun r hr hnone => ?_⟩
  · have hall : ∀ r ∈ sortRows rows, (r.slot_index).isSome :=
      fun r hr => hsome r ((sortRows_perm rows).mem_iff.mp hr)
    have hl : seriesLabels true (sortRows rows) = .ok ((sortRows rows).map
        (fun r => toString r.delivery_date ++ " S-" ++
          toString (r.slot_index.getD 0))) := by
      unfold seriesLabels
      rw [if_pos rfl, mapM_quarterlyLabel_some hall]
    exact ⟨_, generate_market_chart_eq_ok hne hl, rfl⟩
  · have hl : seriesLabels false (sortRows rows) = .ok ((sortRows rows).map
        (fun r => toString r.delivery_date ++ " H-" ++
          toString (r.block_index.getD 0))) := rfl
    exact ⟨_, generate_market_chart_eq_ok hne hl, rfl⟩
  · have hne : rows ≠ [] := ne_nil_of_mem hr
    have hmem : r ∈ sortRows rows := (sortRows_perm rows).mem_iff.mpr hr
    have hl : seriesLabels true (sortRows rows) = .error "KeyError: slot_index" := by
      unfold seriesLabels
      rw [if_pos rfl, mapM_quarterlyLabel_none hmem hnone]
    exact generate_market_chart_eq_error hne hl

/-- Claim C2, witness: a single quarterly row with slot 4 yields the
label list of its sorted singleton. -/
theorem c2_witness :
    ∃ s, generate_market_chart [rowSlotOnly] true = .ok (some s) ∧
      s.labels = (sortRows [rowSlotOnly]).map (fun r =>
        toString r.delivery_date ++ " S-" ++ toString (r.slot_index.getD 0)) :=
  (c2_labels [rowSlotOnly]).1 (by decide) (by decide)

/-- Claim C5: on success the five output sequences all have length equal
to the input row count and are index-aligned with the sorted rows, the
bid columns passed through unchanged. -/
theorem c5_alignment (rows : List MarketRow) (q : Bool) (s : Series)
    (h : generate_market_chart rows q = .ok (some s)) :
    s.labels.length = rows.length ∧ s.volumes.length = rows.length ∧
      s.prices.length = rows.length ∧ s.buyBids.length = rows.length ∧
      s.sellBids.length = rows.length ∧
      s.volumes = seriesVolumes q (sortRows rows) ∧
      s.prices = (sortRows rows).map price_per_kwh ∧
      s.buyBids = (sortRows rows).map (fun r => r.purchase_bid_mw) ∧
      s.sellBids = (sortRows rows).map (fun r => r.sell_bid_mw) := by
  obtain ⟨hne, hl, hv, hp, hb, hs⟩ := generate_market_chart_ok h
  refine ⟨?_, ?_, ?_, ?_, ?_, hv, hp, hb, hs⟩
  · rw [seriesLabels_length hl, sortRows_length]
  · rw [hv, seriesVolumes_length, sortRows_length]
  · rw [hp, length_map, sortRows_length]
  · rw [hb, length_map, sortRows_length]
  · rw [hs, length_map, sortRows_length]

/-- Claim C5, witness: the hourly build of `[rowNoSlot]` produces
`sampleSeries`, whose five sequences all have length 1 and carry the
bid values of the sorted row unchanged. -/
theorem c5_witness :
    sampleSeries.labels.length = [rowNoSlot].length ∧
      sampleSeries.volumes.length = [rowNoSlot].length ∧
      sampleSeries.prices.length = [rowNoSlot].length ∧
      sampleSeries.buyBids.length = [rowNoSlot].length ∧
      sampleSeries.sellBids.length = [rowNoSlot].length ∧
      sampleSeries.volumes = seriesVolumes false (sortRows [rowNoSlot]) ∧
      sampleSeries.prices = (sortRows [rowNoSlot]).map price_per_kwh ∧
      sampleSeries.buyBids =
        (sortRows [rowNoSlot]).map (fun r => r.purchase_bid_mw) ∧
      sampleSeries.sellBids =
        (sortRows [rowNoSlot]).map (fun r => r.sell_bid_mw) :=
  c5_alignment [rowNoSlot] false sampleSeries rfl

/-- Claim C6: in both builders every output price is exactly
`price_avg / 1000`, with no restriction on sign or magnitude of
`price_avg`. -/
theorem c6_price_conversion :
    (∀ (rows : List MarketRow) (q : Bool) (s : Series),
      generate_market_chart rows q = .ok (some s) →
        s.prices = (sortRows rows).map (fun r => r.price_avg / 1000)) ∧
    (∀ (q : Bool) (md : List (String × List MarketRow)) (ts : List Trace),
      multiTraces q md = .ok ts → ∀ t ∈ ts,
        ∃ rows, (t.market, rows) ∈ md ∧
          t.prices = (sortRows rows).map (fun r => r.price_avg / 1000)) := by
  constructor
  · intro rows q s h
    exact (generate_market_chart_ok h).2.2.2.1
  · intro q md ts h t ht
    obtain ⟨rows, hmem, _, _, hp⟩ := multiTraces_mem h t ht
    exact ⟨rows, hmem, hp⟩

/-- Claim C6, witness: the concrete hourly build of `[rowNoSlot]`
(price_avg 5) carries prices `[5 / 1000]`. -/
theorem c6_witness :
    sampleSeries.prices =
      (sortRows [rowNoSlot]).map (fun r => r.price_avg / 1000) :=
  c6_price_conversion.1 [rowNoSlot] false sampleSeries rfl

/-- Claim C7: the quarterly volume conversion `mcv_mw * 0.25` and the
hourly conversion `mcv_mw / 4.0` agree on every row, so the builder
computes the same volumes under either flag. -/
theorem c7_volume_factor (rows : List MarketRow) :
    seriesVolumes true rows = seriesVolumes false rows := by
  unfold seriesVolumes
  rw [if_pos rfl, if_neg (by simp)]
  apply map_congr_left
  intro r _
  norm_num
  ring

/-- Claim C3: the multi-market builder never maps a market with an empty
row collection to a series (such keys are absent from the traces), and
the overall result carries no series exactly when no market has any
rows. -/
theorem c3_empty_markets (md : List (String × List MarketRow)) (q : Bool)
    (res : Option (List Trace))
    (h : generate_multi_market_chart md q = .ok res) :
    (∀ ts, res = some ts → ∀ t ∈ ts,
      ∃ rows, (t.market, rows) ∈ md ∧ rows ≠ []) ∧
    ((md.map Prod.fst).Nodup → ∀ name, (name, ([] : List MarketRow)) ∈ md →
      ∀ ts, res = some ts → ∀ t ∈ ts, t.market ≠ name) ∧
    (resultIsEmpty res = true ↔ ∀ p ∈ md, p.2 = []) := by
  unfold generate_multi_market_chart at h
  split at h
  · next hemp =>
    cases h
    have hmd : md = [] := by simpa [List.isEmpty_iff] using hemp
    subst hmd
    refine ⟨fun ts hts => (nomatch hts), fun _ _ hmem => (nomatch hmem), ?_⟩
    simp [resultIsEmpty]
  · next hemp =>
    cases hm : multiTraces q md with
    | error e => rw [hm] at h; cases h
    | ok ts₀ =>
      rw [hm] at h
      cases h
      have hpart1 : ∀ ts, some ts₀ = some ts → ∀ t ∈ ts,
          ∃ rows, (t.market, rows) ∈ md ∧ rows ≠ [] := by
        intro ts hts t ht
        cases hts
        obtain ⟨rows, hmem, hne, -, -⟩ := multiTraces_mem hm t ht
        exact ⟨rows, hmem, hne⟩
      refine ⟨hpart1, ?_, ?_⟩
      · intro hnodup name hmem ts hts t ht heq
        obtain ⟨rows, hmem', hne⟩ := hpart1 ts hts t ht
        rw [heq] at hmem'
        exact hne (eq_snd_of_nodup_keys hnodup hmem' hmem)
      · have hmk := multiTraces_markets hm
        constructor
        · intro hempty p hp
          have hts : ts₀ = [] := by
            simpa [resultIsEmpty, List.isEmpty_iff] using hempty
          rw [hts] at hmk
          have hfil : md.filter (fun p => !p.2.isEmpty) = [] := by
            have h2 := hmk.symm
            rw [map_nil] at h2
            exact map_eq_nil_iff.mp h2
          have := filter_eq_nil_iff.mp hfil p hp
          simpa [List.isEmpty_iff] using this
        · intro hall
          have hfil : md.filter (fun p => !p.2.isEmpty) = [] :=
            filter_eq_nil_iff.mpr fun p hp => by
              simp [hall p hp]
          rw [hfil] at hmk
          simp only [map_nil, map_eq_nil_iff] at hmk
          simp [resultIsEmpty, hmk]

/-- Claim C3, witness: with DAM mapped to no rows and GDAM mapped to one
row, DAM is absent from the traces and the result is non-empty. -/
theorem c3_witness :
    (∀ t ∈ [sampleTrace], t.market ≠ "DAM") ∧
      (resultIsEmpty (some [sampleTrace]) = true ↔
        ∀ p ∈ sampleMarketData, p.2 = []) :=
  ⟨(c3_empty_markets sampleMarketData false (some [sampleTrace]) rfl).2.1
      (by decide) "DAM" (by decide) [sampleTrace] rfl,
    (c3_empty_markets sampleMarketData false (some [sampleTrace]) rfl).2.2⟩

/-- Claim C4: the comparison builder skips any market absent from the
current mapping or with zero current volume, returns the empty result
exactly when every canonical market is skipped, and otherwise lists the
bars of the included markets in the canonical DAM, GDAM, RTM order. -/
theorem c4_comparison_skipping (cur prev : List (String × MarketSummary)) :
    (∀ m : String,
      (cur.lookup m = none ∨ (lookupMarket cur m).total_volume_gwh.getD 0 = 0) →
      ∀ bs, generate_comparison_chart cur prev = some bs →
        ∀ b ∈ bs, b.market ≠ m) ∧
    (generate_comparison_chart cur prev = none ↔
      ∀ m ∈ markets, ¬ 0 < (lookupMarket cur m).total_volume_gwh.getD 0) ∧
    (∀ bs, generate_comparison_chart cur prev = some bs →
      bs.map MarketBars.market = markets.filter (fun m =>
        decide (0 < (lookupMarket cur m).total_volume_gwh.getD 0))) := by
  have hbars : ∀ bs, generate_comparison_chart cur prev = some bs →
      bs = markets.filterMap (marketBar cur prev) := by
    intro bs hbs
    unfold generate_comparison_chart at hbs
    split at hbs
    · cases hbs
    · cases hbs; rfl
  refine ⟨?_, ?_, ?_⟩
  · intro m hm bs hbs b hb heq
    rw [hbars bs hbs] at hb
    have hpos := (mem_comparisonBars hb).1
    rw [heq] at hpos
    rcases hm with hnone | hzero
    · rw [lookupMarket_of_lookup_none hnone] at hpos
      exact absurd hpos (by norm_num [Option.getD])
    · rw [hzero] at hpos
      exact absurd hpos (lt_irrefl 0)
  · unfold generate_comparison_chart
    split
    · next hemp =>
      have : markets.filterMap (marketBar cur prev) = [] := by
        simpa [List.isEmpty_iff] using hemp
      have hfil : markets.filter (fun m =>
          decide (0 < (lookupMarket cur m).total_volume_gwh.getD 0)) = [] := by
        rw [← comparisonBars_map_market, this, map_nil]
      constructor
      · intro _ m hm
        have := filter_eq_nil_iff.mp hfil m hm
        simpa using this
      · intro _; rfl
    · next hemp =>
      constructor
      · intro h; cases h
      · intro hall
        exfalso
        apply hemp
        rw [List.isEmpty_iff]
        have hmap := comparisonBars_map_market cur prev markets
        rw [filter_eq_nil_iff.mpr fun m hm => by simp [hall m hm]] at hmap
        exact map_eq_nil_iff.mp hmap
  · intro bs hbs
    rw [hbars bs hbs]
    exact comparisonBars_map_market cur prev markets

/-- Claim C4, witness: with only GDAM present (volume 7), DAM — absent
from the current mapping — contributes no bar, and the result is the
single GDAM bar, not the empty result. -/
theorem c4_witness :
    (∀ b ∈ [sampleBar], b.market ≠ "DAM") ∧
      (generate_comparison_chart sampleCurrent [] = none ↔
        ∀ m ∈ markets,
          ¬ 0 < (lookupMarket sampleCurrent m).total_volume_gwh.getD 0) :=
  ⟨(c4_comparison_skipping sampleCurrent []).1 "DAM" (Or.inl rfl)
      [sampleBar] rfl,
    (c4_comparison_skipping sampleCurrent []).2.1⟩

/-- Claim C10: a market with positive current volume is always emitted,
and its previous-year bars fall back to 0 whenever the market is absent
from the previous mapping or its summary lacks the field — missing
previous-year data never omits the market and never fails. -/
theorem c10_previous_defaults (cur prev : List (String × MarketSummary))
    (m : String) (hm : m ∈ markets)
    (hv : 0 < (lookupMarket cur m).total_volume_gwh.getD 0) :
    ∃ bs b, generate_comparison_chart cur prev = some bs ∧ b ∈ bs ∧
      b.market = m ∧
      b.prevVolume = (lookupMarket prev m).total_volume_gwh.getD 0 ∧
      b.prevPrice = (lookupMarket prev m).twap.getD 0 ∧
      (prev.lookup m = none → b.prevVolume = 0 ∧ b.prevPrice = 0) := by
  have hbar := marketBar_eq_some_of_pos prev hv
  have hmem := mem_filterMap.mpr ⟨m, hm, hbar⟩
  refine ⟨markets.filterMap (marketBar cur prev), _, ?_, hmem, rfl, rfl, rfl, ?_⟩
  · unfold generate_comparison_chart
    rw [if_neg (by simp only [List.isEmpty_iff]; exact ne_nil_of_mem hmem)]
  · intro hnone
    rw [lookupMarket_of_lookup_none hnone]
    exact ⟨rfl, rfl⟩

/-- Claim C10, witness: GDAM has current volume 7 and the previous-year
mapping is empty; its bar is still emitted, with previous-year volume and
price both 0. -/
theorem c10_witness :
    ∃ bs b, generate_comparison_chart sampleCurrent [] = some bs ∧ b ∈ bs ∧
      b.market = "GDAM" ∧
      b.prevVolume =
        (lookupMarket [] "GDAM").total_volume_gwh.getD 0 ∧
      b.prevPrice = (lookupMarket [] "GDAM").twap.getD 0 ∧
      (([] : List (String × MarketSummary)).lookup "GDAM" = none →
        b.prevVolume = 0 ∧ b.prevPrice = 0) :=
  c10_previous_defaults sampleCurrent [] "GDAM" (by decide) (by decide)

end ChartGenerator
